import Mathlib

/-!
# hostmgr: trust-file renderer, registry query, watcher loop and role selection

A shallow embedding of `pkg/app/host.go`, `pkg/app/query.go`,
`pkg/app/watcher.go` and the role selection of `cmd/hostmgr/main.go`.

Go `string`s are Lean `String`s, Go `error` values are `GoError` (`nil` is
`none`), an `io.Writer` is a state type together with its `Write` method, and
a `*bufio.Scanner` is the list of tokens it yields followed by the value of
`scanner.Err()`.
-/

namespace Hostmgr

/-! ## Errors, writers and scanners -/

/-- A Go `error` value, identified by its message. -/
structure GoError where
  msg : String
  deriving DecidableEq, Repr

/-- An `io.Writer`: a state and the `Write` method, which returns the new state
and the error of the call. -/
structure IOWriter (σ : Type) where
  Write : σ → String → σ × Option GoError

/-- The writer of `writeKnowHostsFile` and `writeHostsEquivFile`:
`bufio.NewWriter(&buf)` over a `bytes.Buffer`. Its `Write` appends and returns
a nil error; the state is what `buf.Bytes()` holds after `w.Flush()`. -/
def bufWriter : IOWriter String where
  Write := fun buf p => (buf ++ p, none)

/-- A `*bufio.Scanner` as `writeBetweenTags` observes it: the tokens for which
`Scan()` returns true, in order, and the value of `Err()` afterwards. -/
structure Scanner where
  tokens : List String
  err : Option GoError
  deriving DecidableEq, Repr

/-- The value of `bufio.MaxScanTokenSize`. -/
def maxScanTokenSize : Nat := 64 * 1024

/-- The value of `bufio.ErrTooLong`. -/
def ErrTooLong : GoError := ⟨"bufio.Scanner: token too long"⟩

/-- The line splitting of `bufio.ScanLines` before `dropCR`: `cur` is the line
read so far; a newline ends the line, and the text after the last newline is a
line only when it is not empty. -/
def rawLinesAux : List Char → List Char → List (List Char)
  | cur, [] => if cur.isEmpty then [] else [cur]
  | cur, c :: cs => if c = '\n' then cur :: rawLinesAux [] cs else rawLinesAux (cur ++ [c]) cs

/-- The lines of a file content, newline removed, carriage return kept. -/
def rawLines (content : List Char) : List (List Char) := rawLinesAux [] content

/-- The helper `dropCR` of package `bufio`: drops one trailing carriage return. -/
def dropCR (data : List Char) : List Char :=
  if data.getLast? = some '\r' then data.dropLast else data

/-- The lines of a file content as `bufio.ScanLines` tokenises it, with no limit
on the length of a line. -/
def fileLines (content : String) : List String :=
  (rawLines content.data).map (fun l => String.mk (dropCR l))

/-- A line fits the scanner's buffer when it is shorter than
`bufio.MaxScanTokenSize` bytes; the length in bytes of a text is its UTF-8 size. -/
def fitsBuffer (line : List Char) : Bool :=
  decide ((String.mk line).utf8ByteSize < maxScanTokenSize)

/-- The scanner `bufio.NewScanner(f)` over a file holding `content` whose reads
all succeed: it yields the lines up to the first one that does not fit the
buffer, and `Err()` is `ErrTooLong` when there is such a line and nil
otherwise. -/
def NewScanner (content : String) : Scanner where
  tokens := ((rawLines content.data).takeWhile fitsBuffer).map (fun l => String.mk (dropCR l))
  err := if (rawLines content.data).all fitsBuffer then none else some ErrTooLong

/-- The characters `sub` occur consecutively somewhere in the given list. -/
def containsChars (sub : List Char) : List Char → Bool
  | [] => sub.isEmpty
  | c :: cs => sub.isPrefixOf (c :: cs) || containsChars sub cs

/-- Go's `strings.Contains(s, substr)`. -/
def stringsContains (s substr : String) : Bool := containsChars substr.data s.data

/-! ## `pkg/app/host.go` -/

/-- The type `HostDefinition`: a trusted host record. -/
structure HostDefinition where
  Hostname : String
  IP : String
  PublicKey : String
  ClientUser : String
  deriving DecidableEq, Repr

/-- The local variables `err` and `blockWritten` of `writeBetweenTags`, its loop
variable `pass`, and the writer. -/
structure TagState (σ : Type) where
  w : σ
  err : Option GoError
  blockWritten : Bool
  pass : Bool

/-- The closure `writeBlock` of `writeBetweenTags`: writes the tag line, runs the
callback, writes the tag line again, stopping at the first error; the block
counts as written when no error occurred. -/
def writeBlock {σ : Type} (W : IOWriter σ) (tag : String)
    (callback : σ → σ × Option GoError) (st : TagState σ) : TagState σ :=
  let r1 := W.Write st.w (tag ++ "\n")
  match r1.2 with
  | some e => { st with w := r1.1, err := some e, blockWritten := false }
  | none =>
    let r2 := callback r1.1
    match r2.2 with
    | some e => { st with w := r2.1, err := some e, blockWritten := false }
    | none =>
      let r3 := W.Write r2.1 (tag ++ "\n")
      { st with w := r3.1, err := r3.2, blockWritten := r3.2.isNone }

/-- One iteration of the scan loop of `writeBetweenTags` on the token `text`. -/
def scanStep {σ : Type} (W : IOWriter σ) (tag : String)
    (callback : σ → σ × Option GoError) (st : TagState σ) (text : String) : TagState σ :=
  if stringsContains text tag then
    let st1 := { st with pass := !st.pass }
    if !st1.blockWritten then writeBlock W tag callback st1 else st1
  else st

/-- The function `writeBetweenTags`: returns the writer after the call and the
returned error. A nil scanner is `none`. -/
def writeBetweenTags {σ : Type} (W : IOWriter σ) (tag : String) (scanner : Option Scanner)
    (w : σ) (callback : σ → σ × Option GoError) : σ × Option GoError :=
  let st0 : TagState σ := { w := w, err := none, blockWritten := false, pass := false }
  let finish (st : TagState σ) : σ × Option GoError :=
    let st1 := if !st.blockWritten then writeBlock W tag callback st else st
    (st1.w, st1.err)
  match scanner with
  | none => finish st0
  | some sc =>
    let st := sc.tokens.foldl (scanStep W tag callback) st0
    match sc.err with
    | some e => (st.w, some e)
    | none => finish st

/-- The line `writeKnowHostsFile` writes for a record:
`fmt.Sprintf("%s,%s %s\n", def.Hostname, def.IP, def.PublicKey)`. -/
def knownHostsEntry (d : HostDefinition) : String :=
  d.Hostname ++ "," ++ d.IP ++ " " ++ d.PublicKey ++ "\n"

/-- The closure `writeOp` of `writeKnowHostsFile`: writes one entry per record
and returns the error of the last write. -/
def knownHostsWriteOp {σ : Type} (W : IOWriter σ) (defs : List HostDefinition)
    (w : σ) : σ × Option GoError :=
  defs.foldl (fun (acc : σ × Option GoError) d => W.Write acc.1 (knownHostsEntry d)) (w, none)

/-- The two lines `writeHostsEquivFile` writes for a record. -/
def hostsEquivEntries (d : HostDefinition) : String × String :=
  (d.Hostname ++ " " ++ d.ClientUser ++ "\n", d.IP ++ " " ++ d.ClientUser ++ "\n")

/-- The closure `writeOp` of `writeHostsEquivFile`: two writes per record, the
error of the second one overwriting that of the first. -/
def hostsEquivWriteOp {σ : Type} (W : IOWriter σ) (defs : List HostDefinition)
    (w : σ) : σ × Option GoError :=
  defs.foldl (fun (acc : σ × Option GoError) d =>
    let r1 := W.Write acc.1 (hostsEquivEntries d).1
    W.Write r1.1 (hostsEquivEntries d).2) (w, none)

/-- The state of one trust-file path as the renderer meets it. -/
inductive TrustFile where
  /-- The call `os.Open` fails, for instance because the file does not exist. -/
  | missing
  /-- A regular file holding the given content; its reads succeed. -/
  | stored (content : String)
  /-- The call `os.Open` succeeds and scanning yields the given tokens and then
  ends with the given read error. -/
  | failing (tokens : List String) (readErr : GoError)
  deriving DecidableEq, Repr

/-- The scanner handed to `writeBetweenTags`: nil when `os.Open` fails. -/
def TrustFile.scanner : TrustFile → Option Scanner
  | .missing => none
  | .stored content => some (NewScanner content)
  | .failing tokens readErr => some { tokens := tokens, err := some readErr }

/-- A trust-file path: the file, and the error `ioutil.WriteFile` returns for the
path (nil when the write succeeds). A write that fails is taken to leave the
file as it was. -/
structure TrustPath where
  file : TrustFile
  writeErr : Option GoError
  deriving DecidableEq, Repr

/-- The call `ioutil.WriteFile(path, data, 0644)`. -/
def WriteFile (p : TrustPath) (data : String) : TrustPath × Option GoError :=
  match p.writeErr with
  | none => ({ p with file := .stored data }, none)
  | some e => (p, some e)

/-- The tag of the managed section. -/
def hostmgrTag : String := "# hostmgr"

/-- What `buf.Bytes()` holds at the end of `writeKnowHostsFile`, together with the
error `writeBetweenTags` returned (which the function only logs). -/
def knownHostsBuffer (defs : List HostDefinition) (f : TrustFile) : String × Option GoError :=
  writeBetweenTags bufWriter hostmgrTag f.scanner "" (knownHostsWriteOp bufWriter defs)

/-- The function `writeKnowHostsFile`: the path after the call and the returned
error, which is that of `ioutil.WriteFile`. -/
def writeKnowHostsFile (defs : List HostDefinition) (p : TrustPath) : TrustPath × Option GoError :=
  WriteFile p (knownHostsBuffer defs p.file).1

/-- What `buf.Bytes()` holds at the end of `writeHostsEquivFile`, together with
the error `writeBetweenTags` returned (which the function only logs). -/
def hostsEquivBuffer (defs : List HostDefinition) (f : TrustFile) : String × Option GoError :=
  writeBetweenTags bufWriter hostmgrTag f.scanner "" (hostsEquivWriteOp bufWriter defs)

/-- The function `writeHostsEquivFile`. -/
def writeHostsEquivFile (defs : List HostDefinition) (p : TrustPath) : TrustPath × Option GoError :=
  WriteFile p (hostsEquivBuffer defs p.file).1

/-- The two trust files, `/etc/ssh/ssh_known_hosts` and `/etc/ssh/shosts.equiv`. -/
structure FileSystem where
  sshKnownHost : TrustPath
  sshHostsEquiv : TrustPath
  deriving DecidableEq, Repr

/-- The function `updateHostbasedAuthentication`: writes the known-hosts file and,
when that returned no error, the hosts-equiv file. -/
def updateHostbasedAuthentication (defs : List HostDefinition) (fs : FileSystem) :
    FileSystem × Option GoError :=
  let r1 := writeKnowHostsFile defs fs.sshKnownHost
  match r1.2 with
  | some e => ({ fs with sshKnownHost := r1.1 }, some e)
  | none =>
    let r2 := writeHostsEquivFile defs fs.sshHostsEquiv
    match r2.2 with
    | some e => ({ sshKnownHost := r1.1, sshHostsEquiv := r2.1 }, some e)
    | none => ({ sshKnownHost := r1.1, sshHostsEquiv := r2.1 }, none)

/-- The function `UpdateSSHConfiguration`. -/
def UpdateSSHConfiguration (defs : List HostDefinition) (fs : FileSystem) :
    FileSystem × Option GoError :=
  updateHostbasedAuthentication defs fs

/-! ## `pkg/app/query.go` -/

/-- The Redis server as one call of `HostDefinitions` meets it, and the JSON
decoder. -/
structure Registry where
  /-- The error of `redis.DialURL`. -/
  dial : Option GoError
  /-- The result of `redis.Strings(c.Do("Keys", pattern))`. -/
  keys : String → Except GoError (List String)
  /-- The result of `redis.String(c.Do("GET", key))`. -/
  get : String → Except GoError String
  /-- The result of `json.Unmarshal([]byte(value), &b)`: the decoded record, or
  the error. -/
  unmarshal : String → Except GoError HostDefinition

/-- The type `RedisQuery`. -/
structure RedisQuery where
  URL : String
  filter : String
  deriving DecidableEq, Repr

/-- The function `NewQuery`. -/
def NewQuery (aURL aFilter : String) : RedisQuery := { URL := aURL, filter := aFilter }

/-- The body of the loop of `HostDefinitions` for one key: `acc` holds `defs` and
`err`. A failed `GET` stores its error and leaves the empty string as value,
which is then unmarshalled like any other value. -/
def hostDefinitionsStep (r : Registry) (acc : List HostDefinition × Option GoError)
    (key : String) : List HostDefinition × Option GoError :=
  let fetched : String × Option GoError :=
    match r.get key with
    | .ok value => (value, acc.2)
    | .error errB => ("", some errB)
  match r.unmarshal fetched.1 with
  | .ok b => (acc.1 ++ [b], fetched.2)
  | .error errC => (acc.1, some errC)

/-- The method `RedisQuery.HostDefinitions`. -/
def RedisQuery.HostDefinitions (w : RedisQuery) (r : Registry) :
    List HostDefinition × Option GoError :=
  match r.dial with
  | some err => ([], some err)
  | none =>
    match r.keys (w.filter ++ "*") with
    | .error errA => ([], some errA)
    | .ok keys => keys.foldl (hostDefinitionsStep r) ([], none)

/-- The method `RedisQuery.generateKey`:
`fmt.Sprintf("%s/hosts/%s-%s-%s", w.filter, def.Hostname, def.IP, def.ClientUser)`. -/
def RedisQuery.generateKey (w : RedisQuery) (d : HostDefinition) : String :=
  w.filter ++ "/hosts/" ++ d.Hostname ++ "-" ++ d.IP ++ "-" ++ d.ClientUser

/-! ## `pkg/app/watcher.go` -/

/-- What `psc.Receive()` returns. -/
inductive Received where
  /-- A `redis.Message`. -/
  | message
  /-- A `redis.Subscription` with the given `Count`. -/
  | subscription (count : Int)
  /-- An `error`. -/
  | error (e : GoError)
  /-- A value of another type (`redis.Pong`), which matches no case of the switch. -/
  | other
  deriving DecidableEq, Repr

/-- The type `RedisWatcher`; `update` is the callback acting on a state `σ`, and
`conn` says whether the connection is set. -/
structure RedisWatcher (σ : Type) where
  URL : String
  update : σ → σ × Option GoError
  filter : String
  conn : Bool

/-- The function `NewWatcher`. -/
def NewWatcher {σ : Type} (redisURL baseFilter : String)
    (updateCallback : σ → σ × Option GoError) : RedisWatcher σ :=
  { URL := redisURL, update := updateCallback, filter := baseFilter, conn := false }

/-- The method `RedisWatcher.isConnected`. -/
def RedisWatcher.isConnected {σ : Type} (w : RedisWatcher σ) : Bool := w.conn

/-- The method `RedisWatcher.Connect`; `dial` is the error of `redis.DialURL`. -/
def RedisWatcher.Connect {σ : Type} (w : RedisWatcher σ) (dial : Option GoError) :
    RedisWatcher σ × Option GoError :=
  match dial with
  | none => ({ w with conn := true }, none)
  | some err => (w, some err)

/-- How far a call of `Start` got on the events delivered to it. -/
inductive StartResult where
  /-- The call has returned the given error (nil is `none`). -/
  | returned (err : Option GoError)
  /-- The events are used up and the call is blocked in `psc.Receive()`. -/
  | receiving
  deriving DecidableEq, Repr

/-- The receive loop of `Start` on the events `psc.Receive()` delivers, from the
callback state `s`. -/
def receiveLoop {σ : Type} (update : σ → σ × Option GoError) :
    List Received → σ → σ × StartResult
  | [], s => (s, .receiving)
  | .message :: rest, s => receiveLoop update rest (update s).1
  | .subscription count :: rest, s =>
    if count = 0 then (s, .returned none) else receiveLoop update rest s
  | .error e :: _, s => (s, .returned (some e))
  | .other :: rest, s => receiveLoop update rest s

/-- The method `RedisWatcher.Start`: connects when not connected, then runs the
receive loop. Returns the watcher, the callback state and the result. -/
def RedisWatcher.Start {σ : Type} (w : RedisWatcher σ) (dial : Option GoError)
    (events : List Received) (s : σ) : RedisWatcher σ × σ × StartResult :=
  if !w.isConnected then
    match (w.Connect dial).2 with
    | some err => ((w.Connect dial).1, s, .returned (some err))
    | none => ((w.Connect dial).1, receiveLoop w.update events s)
  else (w, receiveLoop w.update events s)

/-! ## `cmd/hostmgr/main.go` -/

/-- The closure `updateOp` of `main`: queries the host definitions and, when the
query returned no error, updates the SSH configuration. -/
def updateOp (redisURL baseFilter : String) (r : Registry) (fs : FileSystem) :
    FileSystem × Option GoError :=
  let q := NewQuery redisURL baseFilter
  let res := q.HostDefinitions r
  match res.2 with
  | some err => (fs, some err)
  | none => UpdateSSHConfiguration res.1 fs

/-- Which roles a run of `main` starts. -/
structure Roles where
  consumer : Bool
  announcer : Bool
  deriving DecidableEq, Repr

/-- The role selection of `main` from the flags `-client` and `-server`: with
neither flag `main` logs "No mode selected. Terminating" and returns; the roles
are started only after that check. -/
def mainRoles (announcerMode consumerMode : Bool) : Roles :=
  if !announcerMode && !consumerMode then
    { consumer := false, announcer := false }
  else
    let consumerMode1 := if !announcerMode && !consumerMode then true else consumerMode
    { consumer := consumerMode1, announcer := announcerMode }

/-! ## Specification-side notions -/

/-- The known-hosts projection of a record list: the entries in list order. -/
def knownHostsProjection : List HostDefinition → String
  | [] => ""
  | d :: ds => knownHostsEntry d ++ knownHostsProjection ds

/-- The hosts-equiv projection of a record list: two lines per record. -/
def hostsEquivProjection : List HostDefinition → String
  | [] => ""
  | d :: ds => (hostsEquivEntries d).1 ++ (hostsEquivEntries d).2 ++ hostsEquivProjection ds

/-- A managed section: the tag line, the body, the tag line. -/
def managedSection (tag body : String) : String := tag ++ "\n" ++ body ++ tag ++ "\n"

/-- The number of lines of a file content that contain the tag. -/
def tagLineCount (content : String) : Nat :=
  ((fileLines content).filter (fun l => stringsContains l hostmgrTag)).length

/-- Some token of the scan contains the tag. -/
def hasTagToken (tag : String) (tokens : List String) : Bool :=
  tokens.any (fun t => stringsContains t tag)

/-- The scan of the file does not end in a read error before a token contains the
tag: the file cannot be opened, or a token contains the tag, or the scan ends
without error. -/
def sectionReached : TrustFile → Bool
  | .missing => true
  | .stored content =>
    hasTagToken hostmgrTag (NewScanner content).tokens || (NewScanner content).err.isNone
  | .failing tokens _ => hasTagToken hostmgrTag tokens

/-- A file of one line of `bufio.MaxScanTokenSize` letters and no newline. -/
def longLineFile : String := String.mk (List.replicate maxScanTokenSize 'a')

/-- The record of a registry entry that is fetched and deserialized successfully,
`none` for an entry whose `GET` or whose unmarshalling fails. -/
def entryRecord (r : Registry) (key : String) : Option HostDefinition :=
  match r.get key with
  | .error _ => none
  | .ok value =>
    match r.unmarshal value with
    | .ok b => some b
    | .error _ => none

/-- The errors met while one key is processed, in the order they occur: the error
of `GET`, then the error of unmarshalling the value (the empty string after a
failed `GET`). -/
def entryErrors (r : Registry) (key : String) : List GoError :=
  match r.get key with
  | .ok value =>
    match r.unmarshal value with
    | .ok _ => []
    | .error errC => [errC]
  | .error errB =>
    match r.unmarshal "" with
    | .ok _ => [errB]
    | .error errC => [errB, errC]

/-- The errors met over a list of keys, in the order they occur. -/
def errorsEncountered (r : Registry) : List String → List GoError
  | [] => []
  | key :: keys => entryErrors r key ++ errorsEncountered r keys

/-- The number of callback invocations: `update` applied `n` times to the state. -/
def invoked {σ : Type} (update : σ → σ × Option GoError) (n : Nat) (s : σ) : σ :=
  Nat.iterate (fun t => (update t).1) n s

/-- An event that ends the receive loop: an error, or a subscription event with
count 0. -/
def Received.terminates : Received → Bool
  | .error _ => true
  | .subscription count => decide (count = 0)
  | _ => false

/-- What `Start` returns on a terminating event: the error itself, or nil for a
subscription event with count 0. -/
def Received.returnValue : Received → Option GoError
  | .error e => some e
  | _ => none

/-- The event is a notification message. -/
def Received.isMessage : Received → Bool
  | .message => true
  | _ => false

/-- A registry with three entries, the second of which is not valid JSON; the
decoder accepts the two texts `A` and `B` only. -/
def sampleRegistry : Registry where
  dial := none
  keys := fun _ => .ok ["/hostmgr/hosts/k1", "/hostmgr/hosts/k2", "/hostmgr/hosts/k3"]
  get := fun key =>
    if key = "/hostmgr/hosts/k1" then .ok "A"
    else if key = "/hostmgr/hosts/k2" then .ok "\x7bbad"
    else if key = "/hostmgr/hosts/k3" then .ok "B"
    else .error ⟨"redigo: nil returned"⟩
  unmarshal := fun value =>
    if value = "A" then .ok ⟨"h1", "10.0.0.1", "keyA", "alice"⟩
    else if value = "B" then .ok ⟨"h2", "10.0.0.2", "keyB", "bob"⟩
    else if value = "" then .error ⟨"unexpected end of JSON input"⟩
    else .error ⟨"invalid character"⟩

/-- A callback that counts its invocations and fails every time. -/
def countingUpdate (n : Nat) : Nat × Option GoError := (n + 1, some ⟨"resync failed"⟩)

/-! ## The writer side of the renderer -/

theorem knownHostsWriteOp_buf (defs : List HostDefinition) (w : String) :
    knownHostsWriteOp bufWriter defs w = (w ++ knownHostsProjection defs, none) := by
  unfold knownHostsWriteOp
  induction defs generalizing w with
  | nil => simp [knownHostsProjection]
  | cons d ds ih =>
    simp only [List.foldl_cons, knownHostsProjection, bufWriter]
    have := ih (w ++ knownHostsEntry d)
    simp only [bufWriter] at this
    rw [this, String.append_assoc]

theorem hostsEquivWriteOp_buf (defs : List HostDefinition) (w : String) :
    hostsEquivWriteOp bufWriter defs w = (w ++ hostsEquivProjection defs, none) := by
  unfold hostsEquivWriteOp
  induction defs generalizing w with
  | nil => simp [hostsEquivProjection]
  | cons d ds ih =>
    simp only [List.foldl_cons, hostsEquivProjection, bufWriter]
    have := ih (w ++ (hostsEquivEntries d).1 ++ (hostsEquivEntries d).2)
    simp only [bufWriter] at this
    rw [this]
    simp only [String.append_assoc]

/-- On the buffer writer, with a callback that appends `body` without error,
`writeBlock` appends the managed section and marks the block written. -/
theorem writeBlock_buf (tag body : String) (cb : String → String × Option GoError)
    (hcb : ∀ w, cb w = (w ++ body, none)) (st : TagState String) :
    writeBlock bufWriter tag cb st =
      { w := st.w ++ managedSection tag body, err := none, blockWritten := true,
        pass := st.pass } := by
  simp [writeBlock, bufWriter, hcb, managedSection, String.append_assoc]

/-- Once the block is written the scan loop changes neither the writer nor the
error. -/
theorem foldl_scanStep_written (tag : String) (cb : String → String × Option GoError)
    (tokens : List String) (st : TagState String) (h : st.blockWritten = true) :
    (tokens.foldl (scanStep bufWriter tag cb) st).w = st.w ∧
    (tokens.foldl (scanStep bufWriter tag cb) st).err = st.err ∧
    (tokens.foldl (scanStep bufWriter tag cb) st).blockWritten = true := by
  induction tokens generalizing st with
  | nil => simp [h]
  | cons t ts ih =>
    simp only [List.foldl_cons]
    by_cases ht : stringsContains t tag = true
    · have hs : scanStep bufWriter tag cb st t = { st with pass := !st.pass } := by
        simp [scanStep, ht, h]
      rw [hs]
      exact ih _ h
    · have hs : scanStep bufWriter tag cb st t = st := by
        simp [scanStep, ht]
      rw [hs]
      exact ih _ h

/-- The scan loop from a state in which the block is not written: the managed
section is appended at the first token that contains the tag. -/
theorem foldl_scanStep_fresh (tag body : String) (cb : String → String × Option GoError)
    (hcb : ∀ w, cb w = (w ++ body, none)) (tokens : List String) (st : TagState String)
    (h : st.blockWritten = false) :
    (hasTagToken tag tokens = true →
      (tokens.foldl (scanStep bufWriter tag cb) st).w = st.w ++ managedSection tag body ∧
      (tokens.foldl (scanStep bufWriter tag cb) st).err = none ∧
      (tokens.foldl (scanStep bufWriter tag cb) st).blockWritten = true) ∧
    (hasTagToken tag tokens = false →
      (tokens.foldl (scanStep bufWriter tag cb) st).w = st.w ∧
      (tokens.foldl (scanStep bufWriter tag cb) st).err = st.err ∧
      (tokens.foldl (scanStep bufWriter tag cb) st).blockWritten = false) := by
  induction tokens generalizing st with
  | nil => simp [hasTagToken, h]
  | cons t ts ih =>
    simp only [List.foldl_cons]
    by_cases ht : stringsContains t tag = true
    · have hs : scanStep bufWriter tag cb st t =
          { w := st.w ++ managedSection tag body, err := none, blockWritten := true,
            pass := !st.pass } := by
        simp [scanStep, ht, h, writeBlock_buf tag body cb hcb]
      rw [hs]
      have hw := foldl_scanStep_written tag cb ts
        { w := st.w ++ managedSection tag body, err := none, blockWritten := true,
          pass := !st.pass } rfl
      simp [hasTagToken, ht, hw]
    · have hs : scanStep bufWriter tag cb st t = st := by
        simp [scanStep, ht]
      rw [hs]
      have := ih st h
      simpa [hasTagToken, ht] using this

/-- What `writeBetweenTags` leaves in an empty buffer and returns: the managed
section when the scanner is nil, when a token contains the tag, or when the scan
ends without error; nothing at all when the scan ends in an error before any
token contains the tag. The returned error is the scanner's. -/
theorem writeBetweenTags_buf (tag body : String) (cb : String → String × Option GoError)
    (hcb : ∀ w, cb w = (w ++ body, none)) (scanner : Option Scanner) :
    writeBetweenTags bufWriter tag scanner "" cb =
      match scanner with
      | none => (managedSection tag body, none)
      | some sc =>
        if hasTagToken tag sc.tokens then (managedSection tag body, sc.err)
        else match sc.err with
          | some e => ("", some e)
          | none => (managedSection tag body, none) := by
  cases scanner with
  | none => simp [writeBetweenTags, writeBlock_buf tag body cb hcb]
  | some sc =>
    have hf := foldl_scanStep_fresh tag body cb hcb sc.tokens
      { w := "", err := none, blockWritten := false, pass := false } rfl
    simp only [writeBetweenTags]
    by_cases ht : hasTagToken tag sc.tokens = true
    · obtain ⟨hw, he, hb⟩ := hf.1 ht
      cases hse : sc.err with
      | none => simp [ht, hw, he, hb]
      | some e => simp [ht, hw]
    · simp only [Bool.not_eq_true] at ht
      obtain ⟨hw, he, hb⟩ := hf.2 ht
      cases hse : sc.err with
      | none => simp [ht, hw, hb, writeBlock_buf tag body cb hcb]
      | some e => simp [ht, hw]

/-! ## The scanner side of the renderer -/

theorem containsChars_iff (sub s : List Char) : containsChars sub s = true ↔ sub <:+: s := by
  induction s with
  | nil => simp [containsChars, List.isEmpty_iff]
  | cons c cs ih =>
    simp only [containsChars, Bool.or_eq_true, List.isPrefixOf_iff_prefix, ih]
    exact List.infix_cons_iff.symm

/-- A line without newline, followed by a newline, is the first line. -/
theorem rawLinesAux_line (cur a r : List Char) (ha : '\n' ∉ a) :
    rawLinesAux cur (a ++ '\n' :: r) = (cur ++ a) :: rawLinesAux [] r := by
  induction a generalizing cur with
  | nil => simp [rawLinesAux]
  | cons c cs ih =>
    have hc : c ≠ '\n' := fun h => ha (by simp [h])
    have hcs : '\n' ∉ cs := fun h => ha (by simp [h])
    simp only [List.cons_append, rawLinesAux, hc, if_false]
    show rawLinesAux (cur ++ [c]) (cs ++ '\n' :: r) = _
    rw [ih _ hcs]
    simp

/-- Splitting distributes over a text that ends in a newline. -/
theorem rawLinesAux_append (cur p q : List Char) :
    rawLinesAux cur (p ++ '\n' :: q) = rawLinesAux cur (p ++ ['\n']) ++ rawLinesAux [] q := by
  induction p generalizing cur with
  | nil => simp [rawLinesAux]
  | cons c cs ih =>
    by_cases hc : c = '\n'
    · simp only [List.cons_append, rawLinesAux, hc, if_true, List.cons_append]
      show cur :: rawLinesAux [] (cs ++ '\n' :: q) =
        cur :: (rawLinesAux [] (cs ++ ['\n']) ++ rawLinesAux [] q)
      rw [ih []]
    · simp only [List.cons_append, rawLinesAux, hc, if_false]
      show rawLinesAux (cur ++ [c]) (cs ++ '\n' :: q) =
        rawLinesAux (cur ++ [c]) (cs ++ ['\n']) ++ rawLinesAux [] q
      rw [ih]

/-- Every line of the split continues `cur` with a prefix of the text or lies
inside the text. -/
theorem rawLinesAux_mem (cur rest l : List Char) (h : l ∈ rawLinesAux cur rest) :
    (∃ p, l = cur ++ p ∧ p <+: rest) ∨ l <:+: rest := by
  induction rest generalizing cur with
  | nil =>
    by_cases hcur : cur.isEmpty = true
    · simp [rawLinesAux, hcur] at h
    · simp only [rawLinesAux, hcur, if_false, List.mem_singleton, Bool.false_eq_true] at h
      exact Or.inl ⟨[], by simp [h], List.prefix_rfl⟩
  | cons c cs ih =>
    by_cases hc : c = '\n'
    · simp only [rawLinesAux, hc, if_true, List.mem_cons] at h
      rcases h with h | h
      · exact Or.inl ⟨[], by simp [h], List.nil_prefix⟩
      · right
        rcases ih [] h with ⟨p, hp, hpre⟩ | hin
        · rw [List.nil_append] at hp
          rw [hp]
          exact (hpre.isInfix).trans (List.suffix_cons _ _).isInfix
        · exact hin.trans (List.suffix_cons _ _).isInfix
    · simp only [rawLinesAux, hc, if_false] at h
      rcases ih _ h with ⟨p, hp, hpre⟩ | hin
      · refine Or.inl ⟨c :: p, by simp [hp], ?_⟩
        exact (List.prefix_cons_inj c).2 hpre
      · exact Or.inr (hin.trans (List.suffix_cons _ _).isInfix)

theorem rawLines_mem_inside (content l : List Char) (h : l ∈ rawLines content) :
    l <:+: content := by
  rcases rawLinesAux_mem [] content l h with ⟨p, hp, hpre⟩ | hin
  · rw [List.nil_append] at hp
    rw [hp]
    exact hpre.isInfix
  · exact hin

theorem dropCR_initial (l : List Char) : dropCR l <+: l := by
  unfold dropCR
  split
  · exact List.dropLast_prefix l
  · exact List.prefix_rfl

/-- A text that does not contain the tag has no line that contains it. -/
theorem fileLines_no_tag (tag body : String) (h : stringsContains body tag = false) :
    (fileLines body).filter (fun l => stringsContains l tag) = [] := by
  rw [List.filter_eq_nil_iff]
  intro l hl
  simp only [fileLines, List.mem_map] at hl
  obtain ⟨raw, hraw, rfl⟩ := hl
  intro hcon
  have h1 : tag.data <:+: dropCR raw := (containsChars_iff _ _).1 hcon
  have h2 : tag.data <:+: body.data :=
    h1.trans ((dropCR_initial raw).isInfix.trans (rawLines_mem_inside _ _ hraw))
  have h3 : stringsContains body tag = true := (containsChars_iff _ _).2 h2
  rw [h] at h3
  exact Bool.noConfusion h3

/-- The lines of a managed section around a body that is empty or ends in a
newline: the tag, the lines of the body, the tag. -/
theorem fileLines_managedSection (body : String)
    (hbody : body = "" ∨ ∃ p : List Char, body.data = p ++ ['\n']) :
    fileLines (managedSection hostmgrTag body) =
      hostmgrTag :: (fileLines body ++ [hostmgrTag]) := by
  have htag : '\n' ∉ hostmgrTag.data := by decide
  have hdrop : String.mk (dropCR hostmgrTag.data) = hostmgrTag := by decide
  have hlast : rawLinesAux [] (hostmgrTag.data ++ ['\n']) = [hostmgrTag.data] := by decide
  have hdata : (managedSection hostmgrTag body).data =
      hostmgrTag.data ++ '\n' :: (body.data ++ (hostmgrTag.data ++ ['\n'])) := by
    simp [managedSection, String.data_append]
  simp only [fileLines, rawLines, hdata]
  rw [rawLinesAux_line [] _ _ htag]
  rcases hbody with rfl | ⟨p, hp⟩
  · simp [hlast, hdrop, rawLinesAux]
    decide
  · rw [hp]
    have : p ++ ['\n'] ++ (hostmgrTag.data ++ ['\n']) =
        p ++ '\n' :: (hostmgrTag.data ++ ['\n']) := by simp
    rw [this, rawLinesAux_append, hlast]
    simp [hdrop]

/-- The scan of a stored managed section starts with the tag line. -/
theorem NewScanner_managedSection (body : String) :
    hasTagToken hostmgrTag (NewScanner (managedSection hostmgrTag body)).tokens = true := by
  have htag : '\n' ∉ hostmgrTag.data := by decide
  have hfit : fitsBuffer hostmgrTag.data = true := by decide
  have hcon : stringsContains (String.mk (dropCR hostmgrTag.data)) hostmgrTag = true := by decide
  have hdata : (managedSection hostmgrTag body).data =
      hostmgrTag.data ++ '\n' :: (body.data ++ (hostmgrTag.data ++ ['\n'])) := by
    simp [managedSection, String.data_append]
  simp only [NewScanner, rawLines, hdata]
  rw [rawLinesAux_line [] _ _ htag]
  simp [hasTagToken, List.takeWhile_cons, hfit, hcon]

/-! ## What the two rewrites put into the buffer -/

theorem knownHostsBuffer_eq (defs : List HostDefinition) (f : TrustFile) :
    knownHostsBuffer defs f =
      match f.scanner with
      | none => (managedSection hostmgrTag (knownHostsProjection defs), none)
      | some sc =>
        if hasTagToken hostmgrTag sc.tokens then
          (managedSection hostmgrTag (knownHostsProjection defs), sc.err)
        else match sc.err with
          | some e => ("", some e)
          | none => (managedSection hostmgrTag (knownHostsProjection defs), none) :=
  writeBetweenTags_buf hostmgrTag (knownHostsProjection defs) _
    (knownHostsWriteOp_buf defs) f.scanner

theorem hostsEquivBuffer_eq (defs : List HostDefinition) (f : TrustFile) :
    hostsEquivBuffer defs f =
      match f.scanner with
      | none => (managedSection hostmgrTag (hostsEquivProjection defs), none)
      | some sc =>
        if hasTagToken hostmgrTag sc.tokens then
          (managedSection hostmgrTag (hostsEquivProjection defs), sc.err)
        else match sc.err with
          | some e => ("", some e)
          | none => (managedSection hostmgrTag (hostsEquivProjection defs), none) :=
  writeBetweenTags_buf hostmgrTag (hostsEquivProjection defs) _
    (hostsEquivWriteOp_buf defs) f.scanner

/-- When the section is reached the buffer holds exactly the managed section. -/
theorem knownHostsBuffer_reached (defs : List HostDefinition) (f : TrustFile)
    (h : sectionReached f = true) :
    (knownHostsBuffer defs f).1 = managedSection hostmgrTag (knownHostsProjection defs) := by
  rw [knownHostsBuffer_eq]
  cases f with
  | missing => rfl
  | stored content =>
    simp only [sectionReached, Bool.or_eq_true, Option.isNone_iff_eq_none] at h
    simp only [TrustFile.scanner]
    by_cases ht : hasTagToken hostmgrTag (NewScanner content).tokens = true
    · simp [ht]
    · rcases h with h | h
      · exact absurd h ht
      · simp [ht, h]
  | failing tokens e =>
    simp only [sectionReached] at h
    simp [TrustFile.scanner, h]

theorem hostsEquivBuffer_reached (defs : List HostDefinition) (f : TrustFile)
    (h : sectionReached f = true) :
    (hostsEquivBuffer defs f).1 = managedSection hostmgrTag (hostsEquivProjection defs) := by
  rw [hostsEquivBuffer_eq]
  cases f with
  | missing => rfl
  | stored content =>
    simp only [sectionReached, Bool.or_eq_true, Option.isNone_iff_eq_none] at h
    simp only [TrustFile.scanner]
    by_cases ht : hasTagToken hostmgrTag (NewScanner content).tokens = true
    · simp [ht]
    · rcases h with h | h
      · exact absurd h ht
      · simp [ht, h]
  | failing tokens e =>
    simp only [sectionReached] at h
    simp [TrustFile.scanner, h]

/-- A stored managed section is always reached by the next scan. -/
theorem sectionReached_managedSection (body : String) :
    sectionReached (.stored (managedSection hostmgrTag body)) = true := by
  simp [sectionReached, NewScanner_managedSection]

theorem sectionReached_empty : sectionReached (.stored "") = true := by decide

/-- The known-hosts projection is empty or ends in a newline. -/
theorem knownHostsProjection_ends (defs : List HostDefinition) :
    knownHostsProjection defs = "" ∨
      ∃ p : List Char, (knownHostsProjection defs).data = p ++ ['\n'] := by
  cases defs with
  | nil => exact Or.inl rfl
  | cons d ds =>
    right
    rcases knownHostsProjection_ends ds with h | ⟨p, hp⟩
    · exact ⟨(d.Hostname ++ "," ++ d.IP ++ " " ++ d.PublicKey).data, by
        simp [knownHostsProjection, h, knownHostsEntry, String.data_append]⟩
    · exact ⟨(knownHostsEntry d).data ++ p, by
        simp [knownHostsProjection, hp, String.data_append]⟩

/-- The hosts-equiv projection is empty or ends in a newline. -/
theorem hostsEquivProjection_ends (defs : List HostDefinition) :
    hostsEquivProjection defs = "" ∨
      ∃ p : List Char, (hostsEquivProjection defs).data = p ++ ['\n'] := by
  cases defs with
  | nil => exact Or.inl rfl
  | cons d ds =>
    right
    rcases hostsEquivProjection_ends ds with h | ⟨p, hp⟩
    · exact ⟨((hostsEquivEntries d).1 ++ (d.IP ++ " " ++ d.ClientUser)).data, by
        simp [hostsEquivProjection, h, hostsEquivEntries, String.data_append]⟩
    · exact ⟨((hostsEquivEntries d).1 ++ (hostsEquivEntries d).2).data ++ p, by
        simp [hostsEquivProjection, hp, String.data_append]⟩

/-- A managed section whose body is empty or ends in a newline and does not
contain the tag has exactly two lines that contain the tag. -/
theorem tagLineCount_managedSection (body : String)
    (hbody : body = "" ∨ ∃ p : List Char, body.data = p ++ ['\n'])
    (hfree : stringsContains body hostmgrTag = false) :
    tagLineCount (managedSection hostmgrTag body) = 2 := by
  have hself : stringsContains hostmgrTag hostmgrTag = true := by decide
  unfold tagLineCount
  rw [fileLines_managedSection body hbody]
  simp [List.filter_cons, List.filter_append, hself, fileLines_no_tag hostmgrTag body hfree]

theorem utf8ByteSize_replicate (n : Nat) :
    (String.mk (List.replicate n 'a')).utf8ByteSize = n := by
  show String.utf8ByteSize.go (List.replicate n 'a') = n
  induction n with
  | zero => rfl
  | succ k ih =>
    show String.utf8ByteSize.go (List.replicate k 'a') + 1 = k + 1
    rw [ih]

theorem rawLinesAux_replicate (n : Nat) (cur : List Char) :
    rawLinesAux cur (List.replicate (n + 1) 'a') = [cur ++ List.replicate (n + 1) 'a'] := by
  induction n generalizing cur with
  | zero => simp [rawLinesAux]
  | succ k ih =>
    show (if 'a' = '\n' then cur :: rawLinesAux [] (List.replicate (k + 1) 'a')
      else rawLinesAux (cur ++ ['a']) (List.replicate (k + 1) 'a')) = _
    rw [if_neg (by decide), ih]
    simp [List.replicate_succ]

/-- A single line of at least `bufio.MaxScanTokenSize` letters makes the scan end
at once with `ErrTooLong`. -/
theorem NewScanner_long (n : Nat) (h : maxScanTokenSize ≤ n + 1) :
    NewScanner (String.mk (List.replicate (n + 1) 'a')) =
      { tokens := [], err := some ErrTooLong } := by
  have hfit : fitsBuffer (List.replicate (n + 1) 'a') = false := by
    simp only [fitsBuffer, utf8ByteSize_replicate, decide_eq_false_iff_not, not_lt]
    exact h
  have hl : rawLines (List.replicate (n + 1) 'a') = [List.replicate (n + 1) 'a'] := by
    have := rawLinesAux_replicate n []
    simpa [rawLines] using this
  simp only [NewScanner, hl, List.takeWhile_cons, hfit, List.all_cons, List.all_nil]
  simp

theorem NewScanner_longLineFile :
    NewScanner longLineFile = { tokens := [], err := some ErrTooLong } :=
  NewScanner_long 65535 (by decide)

/-! ## The rewrite of a trust file -/

theorem writeKnowHostsFile_ok (defs : List HostDefinition) (f : TrustFile) :
    writeKnowHostsFile defs { file := f, writeErr := none } =
      ({ file := .stored (knownHostsBuffer defs f).1, writeErr := none }, none) := rfl

theorem writeHostsEquivFile_ok (defs : List HostDefinition) (f : TrustFile) :
    writeHostsEquivFile defs { file := f, writeErr := none } =
      ({ file := .stored (hostsEquivBuffer defs f).1, writeErr := none }, none) := rfl

/-- C1, evaluated at the failing input: a file with a line before and a line
after the tagged section is rewritten to the managed section alone, by
`writeKnowHostsFile` and by `writeHostsEquivFile`; the lines outside the section
are not in the rewritten file. -/
theorem C1_outside_lines_dropped :
    writeKnowHostsFile [⟨"h1", "10.0.0.1", "keyA", "alice"⟩]
        { file := .stored "keep one\n# hostmgr\nold\n# hostmgr\nkeep two\n", writeErr := none } =
      ({ file := .stored "# hostmgr\nh1,10.0.0.1 keyA\n# hostmgr\n", writeErr := none }, none) ∧
    writeHostsEquivFile [⟨"h1", "10.0.0.1", "keyA", "alice"⟩]
        { file := .stored "keep one\n# hostmgr\nold\n# hostmgr\nkeep two\n", writeErr := none } =
      ({ file := .stored "# hostmgr\nh1 alice\n10.0.0.1 alice\n# hostmgr\n", writeErr := none },
        none) ∧
    fileLines "keep one\n# hostmgr\nold\n# hostmgr\nkeep two\n" =
      ["keep one", "# hostmgr", "old", "# hostmgr", "keep two"] ∧
    fileLines "# hostmgr\nh1,10.0.0.1 keyA\n# hostmgr\n" =
      ["# hostmgr", "h1,10.0.0.1 keyA", "# hostmgr"] := by
  decide

/-- C2, counterexample: a file of one line too long for the scanner makes the scan
end in `ErrTooLong` before any tag line; the first rewrite with the empty record
list writes an empty file, the second rewrite writes the managed section, so the
two contents differ. -/
theorem C2_counterexample :
    (writeKnowHostsFile [] { file := .stored longLineFile, writeErr := none }).1.file =
      .stored "" ∧
    (writeKnowHostsFile []
      (writeKnowHostsFile [] { file := .stored longLineFile, writeErr := none }).1).1.file =
      .stored "# hostmgr\n# hostmgr\n" ∧
    (writeKnowHostsFile []
      (writeKnowHostsFile [] { file := .stored longLineFile, writeErr := none }).1).1.file ≠
    (writeKnowHostsFile [] { file := .stored longLineFile, writeErr := none }).1.file := by
  have h1 : writeKnowHostsFile [] { file := .stored longLineFile, writeErr := none } =
      ({ file := .stored "", writeErr := none }, none) := by
    rw [writeKnowHostsFile_ok, knownHostsBuffer_eq]
    simp [TrustFile.scanner, NewScanner_longLineFile, hasTagToken]
  rw [h1]
  refine ⟨rfl, by decide, by decide⟩

/-- C2, amended: when the file cannot be opened, or its scan ends without a read
error, or a line containing the tag is scanned before the read error, and the
write succeeds, rewriting the rewritten file again with the same records stores
the same content as the first rewrite; this holds for the known-hosts file and
for the hosts-equiv file. -/
theorem C2_rewrite_idempotent (defs : List HostDefinition) (p : TrustPath)
    (hw : p.writeErr = none) (hr : sectionReached p.file = true) :
    (writeKnowHostsFile defs (writeKnowHostsFile defs p).1).1.file =
      (writeKnowHostsFile defs p).1.file ∧
    (writeHostsEquivFile defs (writeHostsEquivFile defs p).1).1.file =
      (writeHostsEquivFile defs p).1.file := by
  obtain ⟨f, we⟩ := p
  simp only at hw hr
  subst hw
  simp only [writeKnowHostsFile_ok, writeHostsEquivFile_ok, knownHostsBuffer_reached defs f hr,
    hostsEquivBuffer_reached defs f hr,
    knownHostsBuffer_reached defs _ (sectionReached_managedSection _),
    hostsEquivBuffer_reached defs _ (sectionReached_managedSection _), and_self]

/-- C2, witness: the amended statement at a file with a tagged section and lines
around it. -/
theorem C2_rewrite_idempotent_witness :
    sectionReached (.stored "keep one\n# hostmgr\nold\n# hostmgr\nkeep two\n") = true ∧
    (writeKnowHostsFile [⟨"h1", "10.0.0.1", "keyA", "alice"⟩]
      (writeKnowHostsFile [⟨"h1", "10.0.0.1", "keyA", "alice"⟩]
        { file := .stored "keep one\n# hostmgr\nold\n# hostmgr\nkeep two\n",
          writeErr := none }).1).1.file =
      (writeKnowHostsFile [⟨"h1", "10.0.0.1", "keyA", "alice"⟩]
        { file := .stored "keep one\n# hostmgr\nold\n# hostmgr\nkeep two\n",
          writeErr := none }).1.file :=
  ⟨by decide,
    (C2_rewrite_idempotent [⟨"h1", "10.0.0.1", "keyA", "alice"⟩]
      { file := .stored "keep one\n# hostmgr\nold\n# hostmgr\nkeep two\n", writeErr := none }
      rfl (by decide)).1⟩

/-- C3, counterexample: a record whose public key holds a newline followed by the
tag is rendered, from a missing file, into a file with three tag lines; and a
file of one line too long for the scanner is rewritten, with success, into an
empty file with no tag line. -/
theorem C3_counterexample :
    writeKnowHostsFile [⟨"h1", "10.0.0.1", "keyA\n# hostmgr", "alice"⟩]
        { file := .missing, writeErr := none } =
      ({ file := .stored "# hostmgr\nh1,10.0.0.1 keyA\n# hostmgr\n# hostmgr\n",
         writeErr := none }, none) ∧
    fileLines "# hostmgr\nh1,10.0.0.1 keyA\n# hostmgr\n# hostmgr\n" =
      ["# hostmgr", "h1,10.0.0.1 keyA", "# hostmgr", "# hostmgr"] ∧
    tagLineCount "# hostmgr\nh1,10.0.0.1 keyA\n# hostmgr\n# hostmgr\n" = 3 ∧
    writeKnowHostsFile [] { file := .stored longLineFile, writeErr := none } =
      ({ file := .stored "", writeErr := none }, none) ∧
    tagLineCount "" = 0 := by
  refine ⟨by decide, by decide, by decide, ?_, by decide⟩
  rw [writeKnowHostsFile_ok, knownHostsBuffer_eq]
  simp [TrustFile.scanner, NewScanner_longLineFile, hasTagToken]

/-- C3, amended: when the file cannot be opened, or its scan ends without a read
error, or a line containing the tag is scanned before the read error, and the
write succeeds, then whatever number of tag lines the input had, the lines of the
rewritten file are: lines without the tag, the tag line, the lines of the
projection of the records, the tag line, lines without the tag; and when the
projection does not contain the tag, exactly two lines of the file contain the
tag. This holds for the known-hosts file and for the hosts-equiv file. -/
theorem C3_single_section (defs : List HostDefinition) (p : TrustPath)
    (hw : p.writeErr = none) (hr : sectionReached p.file = true) :
    (∃ content pre post, (writeKnowHostsFile defs p).1.file = .stored content ∧
      fileLines content =
        pre ++ hostmgrTag :: (fileLines (knownHostsProjection defs) ++ hostmgrTag :: post) ∧
      (∀ l ∈ pre ++ post, stringsContains l hostmgrTag = false) ∧
      (stringsContains (knownHostsProjection defs) hostmgrTag = false →
        tagLineCount content = 2)) ∧
    (∃ content pre post, (writeHostsEquivFile defs p).1.file = .stored content ∧
      fileLines content =
        pre ++ hostmgrTag :: (fileLines (hostsEquivProjection defs) ++ hostmgrTag :: post) ∧
      (∀ l ∈ pre ++ post, stringsContains l hostmgrTag = false) ∧
      (stringsContains (hostsEquivProjection defs) hostmgrTag = false →
        tagLineCount content = 2)) := by
  obtain ⟨f, we⟩ := p
  simp only at hw hr
  subst hw
  refine ⟨⟨managedSection hostmgrTag (knownHostsProjection defs), [], [], ?_, ?_, ?_,
      tagLineCount_managedSection _ (knownHostsProjection_ends defs)⟩,
    ⟨managedSection hostmgrTag (hostsEquivProjection defs), [], [], ?_, ?_, ?_,
      tagLineCount_managedSection _ (hostsEquivProjection_ends defs)⟩⟩
  · simp only [writeKnowHostsFile_ok, knownHostsBuffer_reached defs f hr]
  · rw [fileLines_managedSection _ (knownHostsProjection_ends defs)]
    rfl
  · intro l hl
    simp at hl
  · simp only [writeHostsEquivFile_ok, hostsEquivBuffer_reached defs f hr]
  · rw [fileLines_managedSection _ (hostsEquivProjection_ends defs)]
    rfl
  · intro l hl
    simp at hl

/-- C3, witness: the amended statement at a file with four tag lines. -/
theorem C3_single_section_witness :
    sectionReached (.stored "# hostmgr\na\n# hostmgr\n# hostmgr\nb\n# hostmgr\n") = true ∧
    ∃ content pre post,
      (writeKnowHostsFile [⟨"h1", "10.0.0.1", "keyA", "alice"⟩]
        { file := .stored "# hostmgr\na\n# hostmgr\n# hostmgr\nb\n# hostmgr\n",
          writeErr := none }).1.file = .stored content ∧
      fileLines content =
        pre ++ hostmgrTag ::
          (fileLines (knownHostsProjection [⟨"h1", "10.0.0.1", "keyA", "alice"⟩]) ++
            hostmgrTag :: post) ∧
      (∀ l ∈ pre ++ post, stringsContains l hostmgrTag = false) ∧
      (stringsContains (knownHostsProjection [⟨"h1", "10.0.0.1", "keyA", "alice"⟩])
          hostmgrTag = false →
        tagLineCount content = 2) :=
  ⟨by decide,
    (C3_single_section [⟨"h1", "10.0.0.1", "keyA", "alice"⟩]
      { file := .stored "# hostmgr\na\n# hostmgr\n# hostmgr\nb\n# hostmgr\n", writeErr := none }
      rfl (by decide)).1⟩

/-- C4: run on a known-hosts file that does not exist or is empty, with a write
that succeeds, `writeKnowHostsFile` stores exactly the tag line, one line
`hostname,address publicKey` per record in list order, and the tag line; run again
on that file with one record removed from the list it stores the same shape with
the lines of the remaining records; for the records h1 and h2 of the scenario
these are the four lines and then the three lines of the specification. -/
theorem C4_bootstrap_and_rerun (defs : List HostDefinition) (i : Nat) :
    writeKnowHostsFile defs { file := .missing, writeErr := none } =
      ({ file := .stored (managedSection hostmgrTag (knownHostsProjection defs)),
         writeErr := none }, none) ∧
    writeKnowHostsFile defs { file := .stored "", writeErr := none } =
      ({ file := .stored (managedSection hostmgrTag (knownHostsProjection defs)),
         writeErr := none }, none) ∧
    writeKnowHostsFile (defs.eraseIdx i)
        { file := .stored (managedSection hostmgrTag (knownHostsProjection defs)),
          writeErr := none } =
      ({ file := .stored (managedSection hostmgrTag (knownHostsProjection (defs.eraseIdx i))),
         writeErr := none }, none) ∧
    managedSection hostmgrTag (knownHostsProjection defs) =
      "# hostmgr\n" ++
        defs.foldr (fun d rest => d.Hostname ++ "," ++ d.IP ++ " " ++ d.PublicKey ++ "\n" ++ rest)
          "" ++ "# hostmgr\n" ∧
    writeKnowHostsFile [⟨"h1", "10.0.0.1", "keyA", "alice"⟩, ⟨"h2", "10.0.0.2", "keyB", "bob"⟩]
        { file := .stored "", writeErr := none } =
      ({ file := .stored "# hostmgr\nh1,10.0.0.1 keyA\nh2,10.0.0.2 keyB\n# hostmgr\n",
         writeErr := none }, none) ∧
    writeKnowHostsFile [⟨"h2", "10.0.0.2", "keyB", "bob"⟩]
        { file := .stored "# hostmgr\nh1,10.0.0.1 keyA\nh2,10.0.0.2 keyB\n# hostmgr\n",
          writeErr := none } =
      ({ file := .stored "# hostmgr\nh2,10.0.0.2 keyB\n# hostmgr\n", writeErr := none },
        none) := by
  refine ⟨?_, ?_, ?_, ?_, by decide, by decide⟩
  · rw [writeKnowHostsFile_ok, knownHostsBuffer_reached defs .missing rfl]
  · rw [writeKnowHostsFile_ok, knownHostsBuffer_reached defs _ sectionReached_empty]
  · rw [writeKnowHostsFile_ok,
      knownHostsBuffer_reached _ _ (sectionReached_managedSection _)]
  · have hp : knownHostsProjection defs =
        defs.foldr (fun d rest => d.Hostname ++ "," ++ d.IP ++ " " ++ d.PublicKey ++ "\n" ++ rest)
          "" := by
      induction defs with
      | nil => rfl
      | cons d ds ih => simp [knownHostsProjection, knownHostsEntry, ih]
    rw [hp]
    apply String.ext
    simp [managedSection, hostmgrTag, String.data_append]

/-- C7, counterexample: the scan of the known-hosts file fails with a read error
at once; `writeBetweenTags` returns that error, yet `writeKnowHostsFile` writes
the (empty) buffer and returns nil, and so does `UpdateSSHConfiguration`. -/
theorem C7_counterexample :
    (knownHostsBuffer [] (.failing [] ⟨"input/output error"⟩)).2 =
      some ⟨"input/output error"⟩ ∧
    writeKnowHostsFile [] { file := .failing [] ⟨"input/output error"⟩, writeErr := none } =
      ({ file := .stored "", writeErr := none }, none) ∧
    (UpdateSSHConfiguration []
      { sshKnownHost := { file := .failing [] ⟨"input/output error"⟩, writeErr := none },
        sshHostsEquiv := { file := .failing [] ⟨"input/output error"⟩, writeErr := none } }).2 =
      none := by
  decide

/-- C7, amended: when the scan of the existing trust file ends in a read error (an
error of the reader, or `ErrTooLong` for a line too long), `writeBetweenTags`
returns that error, which the caller only logs; the target file is still written
with the buffer assembled so far, and `writeKnowHostsFile` and
`writeHostsEquivFile` return the error of the file write, nil when the write
succeeds; `UpdateSSHConfiguration` returns the first write error of the two. -/
theorem C7_read_error_only_logged (defs : List HostDefinition) (tokens : List String)
    (e : GoError) (we we2 : Option GoError) (f f2 : TrustFile) :
    (knownHostsBuffer defs (.failing tokens e)).2 = some e ∧
    (hostsEquivBuffer defs (.failing tokens e)).2 = some e ∧
    (knownHostsBuffer defs (.stored longLineFile)).2 = some ErrTooLong ∧
    (writeKnowHostsFile defs { file := f, writeErr := we }).2 = we ∧
    (writeHostsEquivFile defs { file := f, writeErr := we }).2 = we ∧
    (writeKnowHostsFile defs { file := f, writeErr := none }).1.file =
      .stored (knownHostsBuffer defs f).1 ∧
    (writeHostsEquivFile defs { file := f, writeErr := none }).1.file =
      .stored (hostsEquivBuffer defs f).1 ∧
    (UpdateSSHConfiguration defs
      { sshKnownHost := { file := f, writeErr := we },
        sshHostsEquiv := { file := f2, writeErr := we2 } }).2 =
      (match we with
        | some e1 => some e1
        | none => we2) := by
  have hk : (knownHostsBuffer defs (.failing tokens e)).2 = some e := by
    rw [knownHostsBuffer_eq]
    by_cases ht : hasTagToken hostmgrTag tokens = true <;> simp [TrustFile.scanner, ht]
  have hq : (hostsEquivBuffer defs (.failing tokens e)).2 = some e := by
    rw [hostsEquivBuffer_eq]
    by_cases ht : hasTagToken hostmgrTag tokens = true <;> simp [TrustFile.scanner, ht]
  have hl : (knownHostsBuffer defs (.stored longLineFile)).2 = some ErrTooLong := by
    rw [knownHostsBuffer_eq]
    simp [TrustFile.scanner, NewScanner_longLineFile, hasTagToken]
  refine ⟨hk, hq, hl, ?_, ?_, rfl, rfl, ?_⟩
  · cases we <;> rfl
  · cases we <;> rfl
  · cases we <;> cases we2 <;> rfl

/-! ## The registry query -/

theorem entryRecord_none_iff (r : Registry) (key : String) :
    entryRecord r key = none ↔ entryErrors r key ≠ [] := by
  unfold entryRecord entryErrors
  cases r.get key with
  | error e => cases r.unmarshal "" <;> simp
  | ok v => cases hu : r.unmarshal v <;> simp [hu]

/-- The loop of `HostDefinitions`: the records of the good entries are appended in
key order, and the error is the last one met, if any. -/
theorem hostDefinitions_fold (r : Registry) (hempty : ∃ e, r.unmarshal "" = .error e)
    (keys : List String) (acc : List HostDefinition × Option GoError) :
    keys.foldl (hostDefinitionsStep r) acc =
      (acc.1 ++ keys.filterMap (entryRecord r),
        ((errorsEncountered r keys).getLast?).or acc.2) := by
  obtain ⟨e0, he0⟩ := hempty
  induction keys generalizing acc with
  | nil => simp [errorsEncountered]
  | cons k ks ih =>
    rw [List.foldl_cons, ih]
    simp only [errorsEncountered, List.getLast?_append]
    cases hg : r.get k with
    | error eb =>
      simp [hostDefinitionsStep, entryRecord, entryErrors, hg, he0]
      cases (errorsEncountered r ks).getLast? <;> simp
    | ok v =>
      cases hu : r.unmarshal v with
      | error ec =>
        simp [hostDefinitionsStep, entryRecord, entryErrors, hg, hu]
        cases (errorsEncountered r ks).getLast? <;> simp
      | ok b =>
        simp [hostDefinitionsStep, entryRecord, entryErrors, hg, hu]

theorem errorsEncountered_eq_nil (r : Registry) (keys : List String) :
    errorsEncountered r keys = [] ↔ ∀ k ∈ keys, entryRecord r k ≠ none := by
  induction keys with
  | nil => simp [errorsEncountered]
  | cons k ks ih =>
    simp only [errorsEncountered, List.append_eq_nil, ih, List.mem_cons, forall_eq_or_imp]
    have := entryRecord_none_iff r k
    constructor
    · rintro ⟨h1, h2⟩
      exact ⟨fun h => (this.1 h) h1, h2⟩
    · rintro ⟨h1, h2⟩
      refine ⟨?_, h2⟩
      by_contra hne
      exact h1 (this.2 hne)

/-- With the connection and the key listing successful, what `HostDefinitions`
returns. -/
theorem hostDefinitions_eq (w : RedisQuery) (r : Registry) (keys : List String)
    (hdial : r.dial = none) (hkeys : r.keys (w.filter ++ "*") = .ok keys)
    (hempty : ∃ e, r.unmarshal "" = .error e) :
    w.HostDefinitions r =
      (keys.filterMap (entryRecord r), (errorsEncountered r keys).getLast?) := by
  simp only [RedisQuery.HostDefinitions, hdial, hkeys, hostDefinitions_fold r hempty]
  cases (errorsEncountered r keys).getLast? <;> simp

theorem getLast?_ne_none_iff {α : Type} (l : List α) : l.getLast? ≠ none ↔ l ≠ [] := by
  cases l with
  | nil => simp
  | cons a as => simp [List.getLast?_cons]

theorem length_filterMap_entryRecord (r : Registry) (keys : List String) :
    (keys.filterMap (entryRecord r)).length +
      keys.countP (fun k => (entryRecord r k).isNone) = keys.length := by
  induction keys with
  | nil => rfl
  | cons k ks ih =>
    cases h : entryRecord r k with
    | none => simp [List.filterMap_cons, h, List.countP_cons]; omega
    | some b => simp [List.filterMap_cons, h, List.countP_cons]; omega

/-- C5: with the connection and the key listing successful, `HostDefinitions`
returns, in key order, exactly the records of the entries that were fetched and
deserialized successfully; the returned error is the last error met, and it is
non-nil exactly when some entry failed; with exactly one failing entry among N it
returns N-1 records and a non-nil error. (The JSON decoder rejects the empty
string, the value left by a failed `GET`.) -/
theorem C5_hostDefinitions_partial_success (w : RedisQuery) (r : Registry)
    (keys : List String) (hdial : r.dial = none)
    (hkeys : r.keys (w.filter ++ "*") = .ok keys)
    (hempty : ∃ e, r.unmarshal "" = .error e) :
    (w.HostDefinitions r).1 = keys.filterMap (entryRecord r) ∧
    (w.HostDefinitions r).2 = (errorsEncountered r keys).getLast? ∧
    ((w.HostDefinitions r).2 ≠ none ↔ ∃ k ∈ keys, entryRecord r k = none) ∧
    (keys.countP (fun k => (entryRecord r k).isNone) = 1 →
      (w.HostDefinitions r).1.length = keys.length - 1 ∧ (w.HostDefinitions r).2 ≠ none) := by
  rw [hostDefinitions_eq w r keys hdial hkeys hempty]
  have hiff : (errorsEncountered r keys).getLast? ≠ none ↔ ∃ k ∈ keys, entryRecord r k = none := by
    rw [getLast?_ne_none_iff, Ne, errorsEncountered_eq_nil]
    push_neg
    rfl
  refine ⟨rfl, rfl, hiff, ?_⟩
  intro hone
  have hlen := length_filterMap_entryRecord r keys
  refine ⟨by simp only; omega, ?_⟩
  apply hiff.2
  have hpos : 0 < keys.countP (fun k => (entryRecord r k).isNone) := by omega
  obtain ⟨k, hk, hkn⟩ := List.countP_pos_iff.1 hpos
  exact ⟨k, hk, by simpa [Option.isNone_iff_eq_none] using hkn⟩

/-- C5, witness: the sample registry of three entries, one of them unparseable,
yields the two other records and a non-nil error. -/
theorem C5_hostDefinitions_partial_success_witness :
    ((NewQuery "localhost:6379" "/hostmgr").HostDefinitions sampleRegistry).1 =
      ["/hostmgr/hosts/k1", "/hostmgr/hosts/k2", "/hostmgr/hosts/k3"].filterMap
        (entryRecord sampleRegistry) ∧
    ["/hostmgr/hosts/k1", "/hostmgr/hosts/k2", "/hostmgr/hosts/k3"].filterMap
        (entryRecord sampleRegistry) =
      [⟨"h1", "10.0.0.1", "keyA", "alice"⟩, ⟨"h2", "10.0.0.2", "keyB", "bob"⟩] ∧
    ((NewQuery "localhost:6379" "/hostmgr").HostDefinitions sampleRegistry).2 =
      some ⟨"invalid character"⟩ :=
  ⟨(C5_hostDefinitions_partial_success (NewQuery "localhost:6379" "/hostmgr") sampleRegistry
      ["/hostmgr/hosts/k1", "/hostmgr/hosts/k2", "/hostmgr/hosts/k3"] rfl rfl
      ⟨⟨"unexpected end of JSON input"⟩, rfl⟩).1,
    by decide, by decide⟩

/-! ## The watcher -/

theorem invoked_succ {σ : Type} (update : σ → σ × Option GoError) (n : Nat) (s : σ) :
    invoked update (n + 1) s = invoked update n (update s).1 := rfl

/-- Events that do not terminate the loop are consumed, the callback running once
for each message among them. -/
theorem receiveLoop_append {σ : Type} (update : σ → σ × Option GoError)
    (pre rest : List Received) (s : σ) (hpre : ∀ ev ∈ pre, ev.terminates = false) :
    receiveLoop update (pre ++ rest) s =
      receiveLoop update rest (invoked update (pre.countP Received.isMessage) s) := by
  induction pre generalizing s with
  | nil => rfl
  | cons ev evs ih =>
    have hev := hpre ev (List.mem_cons_self _ _)
    have hevs : ∀ x ∈ evs, x.terminates = false := fun x hx => hpre x (List.mem_cons_of_mem _ hx)
    cases ev with
    | message =>
      show receiveLoop update (evs ++ rest) (update s).1 = _
      rw [ih _ hevs]
      simp [List.countP_cons, Received.isMessage, invoked_succ]
    | subscription count =>
      have hc : count ≠ 0 := by simpa [Received.terminates] using hev
      show (if count = 0 then (s, StartResult.returned none)
        else receiveLoop update (evs ++ rest) s) = _
      rw [if_neg hc, ih _ hevs]
      simp [List.countP_cons, Received.isMessage]
    | error e => simp [Received.terminates] at hev
    | other =>
      show receiveLoop update (evs ++ rest) s = _
      rw [ih _ hevs]
      simp [List.countP_cons, Received.isMessage]

/-- A terminating event ends the loop without a callback invocation. -/
theorem receiveLoop_terminator {σ : Type} (update : σ → σ × Option GoError)
    (t : Received) (rest : List Received) (s : σ) (ht : t.terminates = true) :
    receiveLoop update (t :: rest) s =
      (s, .returned t.returnValue) := by
  cases t with
  | message => simp [Received.terminates] at ht
  | subscription count =>
    have hc : count = 0 := by simpa [Received.terminates] using ht
    simp [receiveLoop, hc, Received.returnValue]
  | error e => rfl
  | other => simp [Received.terminates] at ht

/-- With the connection available `Start` runs the receive loop from the given
state. -/
theorem start_connected {σ : Type} (w : RedisWatcher σ) (dial : Option GoError)
    (events : List Received) (s : σ) (h : w.conn = true ∨ dial = none) :
    (w.Start dial events s).2 = receiveLoop w.update events s := by
  unfold RedisWatcher.Start RedisWatcher.isConnected RedisWatcher.Connect
  cases hc : w.conn with
  | true => simp
  | false =>
    rcases h with h | h
    · rw [hc] at h
      exact Bool.noConfusion h
    · subst h
      simp

/-- C6: when connecting fails `Start` returns the error and the callback state is
untouched; otherwise, on events made of a part without terminating event followed
by a terminating event, the callback has run exactly once for each message of that
part, whatever it returned, and `Start` returns the error when the terminating
event is an error and nil when it is a subscription event with count 0; an error
that arrives before any message leaves the callback state untouched; and as long
as no terminating event has arrived `Start` has not returned. -/
theorem C6_watcher_start {σ : Type} (w : RedisWatcher σ) (dial : Option GoError)
    (events : List Received) (s : σ) :
    (∀ e, w.conn = false → dial = some e →
      w.Start dial events s = (w, s, .returned (some e))) ∧
    (∀ pre t rest, (w.conn = true ∨ dial = none) → events = pre ++ t :: rest →
      (∀ ev ∈ pre, ev.terminates = false) → t.terminates = true →
      (w.Start dial events s).2 =
        (invoked w.update (pre.countP Received.isMessage) s, .returned t.returnValue)) ∧
    (∀ pre e rest, (w.conn = true ∨ dial = none) → events = pre ++ .error e :: rest →
      (∀ ev ∈ pre, ev.terminates = false ∧ ev.isMessage = false) →
      (w.Start dial events s).2 = (s, .returned (some e))) ∧
    ((w.conn = true ∨ dial = none) → (∀ ev ∈ events, ev.terminates = false) →
      (w.Start dial events s).2 =
        (invoked w.update (events.countP Received.isMessage) s, .receiving)) := by
  refine ⟨?_, ?_, ?_, ?_⟩
  · intro e hc hd
    subst hd
    simp [RedisWatcher.Start, RedisWatcher.isConnected, RedisWatcher.Connect, hc]
  · intro pre t rest hconn hev hpre ht
    rw [start_connected w dial events s hconn, hev, receiveLoop_append _ _ _ _ hpre,
      receiveLoop_terminator _ _ _ _ ht]
  · intro pre e rest hconn hev hpre
    have hcount : pre.countP Received.isMessage = 0 := by
      rw [List.countP_eq_zero]
      intro ev hmem
      simp [(hpre ev hmem).2]
    rw [start_connected w dial events s hconn, hev,
      receiveLoop_append _ _ _ _ (fun ev hmem => (hpre ev hmem).1), hcount]
    rfl
  · intro hconn hall
    have := receiveLoop_append w.update events [] s hall
    rw [List.append_nil] at this
    rw [start_connected w dial events s hconn, this]
    rfl

/-- C6, witness: a callback that fails each time runs twice for the two messages
before the error, and `Start` returns the error; a failed connection returns the
error with no invocation. -/
theorem C6_watcher_start_witness :
    ((NewWatcher "localhost:6379" "/hostmgr" countingUpdate).Start none
      [.subscription 1, .message, .other, .message, .error ⟨"connection reset"⟩, .message]
      0).2 = (2, .returned (some ⟨"connection reset"⟩)) ∧
    ((NewWatcher "localhost:6379" "/hostmgr" countingUpdate).Start
      (some ⟨"connection refused"⟩) [.message] 0).2 =
      (0, .returned (some ⟨"connection refused"⟩)) :=
  ⟨(C6_watcher_start (NewWatcher "localhost:6379" "/hostmgr" countingUpdate) none
      [.subscription 1, .message, .other, .message, .error ⟨"connection reset"⟩, .message]
      0).2.1 [.subscription 1, .message, .other, .message] (.error ⟨"connection reset"⟩)
      [.message] (Or.inr rfl) rfl (by decide) rfl,
    congrArg Prod.snd ((C6_watcher_start (NewWatcher "localhost:6379" "/hostmgr" countingUpdate)
      (some ⟨"connection refused"⟩) [.message] 0).1 ⟨"connection refused"⟩ rfl rfl)⟩

/-! ## Role selection, registry keys and the resync callback -/

/-- C8, evaluated at the failing input: with neither `-server` nor `-client` set,
`main` starts no role at all. -/
theorem C8_no_mode_starts_nothing :
    mainRoles false false = { consumer := false, announcer := false } ∧
    (mainRoles false false).consumer ≠ true := by
  decide

/-- C9, evaluated at the failing input: two host definitions that differ in
hostname, IP and client user are given the same registry key. -/
theorem C9_generateKey_collision :
    (NewQuery "localhost:6379" "/hostmgr").generateKey
        ⟨"gw-10.0.0.1-a", "10.0.0.2", "keyA", "b"⟩ =
      "/hostmgr/hosts/gw-10.0.0.1-a-10.0.0.2-b" ∧
    (NewQuery "localhost:6379" "/hostmgr").generateKey
        ⟨"gw", "10.0.0.1", "keyB", "a-10.0.0.2-b"⟩ =
      "/hostmgr/hosts/gw-10.0.0.1-a-10.0.0.2-b" ∧
    (⟨"gw-10.0.0.1-a", "10.0.0.2", "keyA", "b"⟩ : HostDefinition) ≠
      ⟨"gw", "10.0.0.1", "keyB", "a-10.0.0.2-b"⟩ := by
  decide

/-- C10: when the connection and the key listing succeed and at least one entry
fails to be fetched or deserialized, `HostDefinitions` returns the records of the
good entries together with an error, and `updateOp` returns that error and leaves
the trust files as they were: the records are not rendered. (The JSON decoder
rejects the empty string, the value left by a failed `GET`.) -/
theorem C10_updateOp_skips_rewrite (redisURL baseFilter : String) (r : Registry)
    (keys : List String) (fs : FileSystem) (hdial : r.dial = none)
    (hkeys : r.keys (baseFilter ++ "*") = .ok keys)
    (hempty : ∃ e, r.unmarshal "" = .error e)
    (hbad : ∃ k ∈ keys, entryRecord r k = none) :
    ∃ e, (NewQuery redisURL baseFilter).HostDefinitions r =
        (keys.filterMap (entryRecord r), some e) ∧
      updateOp redisURL baseFilter r fs = (fs, some e) := by
  have heq := hostDefinitions_eq (NewQuery redisURL baseFilter) r keys hdial hkeys hempty
  have hne : errorsEncountered r keys ≠ [] := by
    intro hnil
    obtain ⟨k, hk, hkn⟩ := hbad
    exact (errorsEncountered_eq_nil r keys).1 hnil k hk hkn
  obtain ⟨e, he⟩ : ∃ e, (errorsEncountered r keys).getLast? = some e := by
    cases hl : (errorsEncountered r keys).getLast? with
    | none => exact absurd hl ((getLast?_ne_none_iff _).2 hne)
    | some e => exact ⟨e, rfl⟩
  refine ⟨e, by rw [heq, he], ?_⟩
  simp only [updateOp, heq, he]

/-- C10, witness: on the sample registry, whose second entry is unparseable,
`updateOp` returns the error and the two trust files keep their content. -/
theorem C10_updateOp_skips_rewrite_witness :
    ∃ e, (NewQuery "localhost:6379" "/hostmgr").HostDefinitions sampleRegistry =
        (["/hostmgr/hosts/k1", "/hostmgr/hosts/k2", "/hostmgr/hosts/k3"].filterMap
          (entryRecord sampleRegistry), some e) ∧
      updateOp "localhost:6379" "/hostmgr" sampleRegistry
        { sshKnownHost := { file := .stored "old\n", writeErr := none },
          sshHostsEquiv := { file := .missing, writeErr := none } } =
        ({ sshKnownHost := { file := .stored "old\n", writeErr := none },
           sshHostsEquiv := { file := .missing, writeErr := none } }, some e) :=
  C10_updateOp_skips_rewrite "localhost:6379" "/hostmgr" sampleRegistry
    ["/hostmgr/hosts/k1", "/hostmgr/hosts/k2", "/hostmgr/hosts/k3"]
    { sshKnownHost := { file := .stored "old\n", writeErr := none },
      sshHostsEquiv := { file := .missing, writeErr := none } }
    rfl rfl ⟨⟨"unexpected end of JSON input"⟩, rfl⟩ ⟨"/hostmgr/hosts/k2", by decide, by decide⟩

end Hostmgr
